import Mathlib

/-!
Verification of the entity and media reconciliation and aggregation subsystem
of the admin backend. JS strings are modelled as lists of characters, JS Map
values (which iterate in key insertion order) as association lists updated in
place, and fallible store or object-store calls as Except values.
-/

/-- Strings of the source language, modelled as lists of characters. -/
abbrev Str := List Char

/-- Coercion from Lean string literals into the string model. -/
def str (s : String) : Str := s.data

/-- Lookup in an association list, mirroring Map.get. -/
def lookupS {α : Type} : List (Str × α) → Str → Option α
  | [], _ => none
  | (k, v) :: rest, k0 => if k = k0 then some v else lookupS rest k0

/-- Embedding of counts.set(key, (counts.get(key) or 0) + 1) on a JS Map:
an existing key keeps its position, a new key is appended at the end. -/
def bump : List (Str × Nat) → Str → List (Str × Nat)
  | [], k => [(k, 1)]
  | (k, v) :: rest, k0 => if k = k0 then (k, v + 1) :: rest else (k, v) :: bump rest k0

/-- The keys of an association list, in order. -/
def keysOf {α : Type} (m : List (Str × α)) : List Str := m.map Prod.fst

/-- Sum of the values of a counts map. -/
def valuesSum (m : List (Str × Nat)) : Nat := (m.map Prod.snd).sum

/-- Embedding of str.split on the pipe character, as JS split produces it
(all fragments kept, empty fragments included). -/
def splitOnPipe : Str → List Str
  | [] => [[]]
  | c :: rest =>
    if c = '|' then [] :: splitOnPipe rest
    else
      match splitOnPipe rest with
      | [] => [[c]]
      | part :: parts => (c :: part) :: parts

/-- A Picture row: a media URL linking a carrier and a vehicle. -/
structure TravelPicture where
  _id : Str := []
  carrier : Str
  vehicle : Str
  url : Str := []
  deriving DecidableEq, Repr

/-- A row of the per carrier and vehicle pair table. -/
structure TravelPictureTable where
  carrier : Str
  vehicle : Str
  count : Nat
  deriving DecidableEq, Repr

/-- A VehicleSeries row: a vehicle belonging to a named series. -/
structure VehicleSeries where
  _id : Str := []
  series : Str
  vehicle : Str
  mode : Str := []
  deriving DecidableEq, Repr

/-- A row of the per carrier and series table. -/
structure TravelPictureSeries where
  carrier : Str
  series : Str
  count : Nat
  deriving DecidableEq, Repr

/-- The carrier and vehicle grouping key of a Picture. -/
def pairKey (p : TravelPicture) : Str := p.carrier ++ '|' :: p.vehicle

/-- First two fragments of a split key, as the destructuring
const [a, b] = key.split produces them (missing fragments default). -/
def keyParts (k : Str) : Str × Str :=
  let parts := splitOnPipe k
  (parts.headD [], (parts.drop 1).headD [])

/-- Embedding of convertToTravelPictureTable: count Pictures per joined
carrier and vehicle key, then split each key back into a table row. -/
def convertToTravelPictureTable (pictures : List TravelPicture) : List TravelPictureTable :=
  let counts := pictures.foldl (fun m p => bump m (pairKey p)) []
  counts.map (fun kc => { carrier := (keyParts kc.1).1, vehicle := (keyParts kc.1).2, count := kc.2 })

/-! Basic lemmas about lookupS, bump and keysOf. -/
/-- Value of a key in a counts map, defaulting a missing key to zero. -/
def valAt (m : List (Str × Nat)) (k : Str) : Nat := (lookupS m k).getD 0

/-- Folding bump over a list of keys, the common core of the grouping loops. -/
def tally (m : List (Str × Nat)) (ks : List Str) : List (Str × Nat) := ks.foldl bump m

/-- Picture rows of the concrete scenario in the spec. -/
def samplePictures : List TravelPicture :=
  [{ carrier := str ("A"), vehicle := str ("V1") },
   { carrier := str ("A"), vehicle := str ("V1") },
   { carrier := str ("A"), vehicle := str ("V2") }]

/-- VehicleSeries rows of the concrete scenario in the spec. -/
def sampleSeries : List VehicleSeries :=
  [{ series := str ("S1"), vehicle := str ("V1") },
   { series := str ("S1"), vehicle := str ("V2") }]

/-! Embedding of aggregatePictureData and its vehicle to series map. -/
/-- Embedding of the map-building step in aggregatePictureData: push a series
onto the entry of its vehicle, first sight creating the entry at the end. -/
def mapAppend (m : List (Str × List Str)) (k v : Str) : List (Str × List Str) :=
  match m with
  | [] => [(k, [v])]
  | (k1, vs) :: rest =>
    if k1 = k then (k1, vs ++ [v]) :: rest else (k1, vs) :: mapAppend rest k v

/-- The vehicleToSeriesMap loop of aggregatePictureData. -/
def buildVehicleToSeriesMap (seriesData : List VehicleSeries) : List (Str × List Str) :=
  seriesData.foldl (fun m s => mapAppend m s.vehicle s.series) []

/-- The carrier and series grouping key. -/
def seriesKey (c s : Str) : Str := c ++ '|' :: s

/-- Embedding of aggregatePictureData: build the vehicle to series map, then
bump one count per picture and per listed series of its vehicle, finally
split the joined keys back into rows. -/
def aggregatePictureData (pictures : List TravelPicture) (seriesData : List VehicleSeries) :
    List TravelPictureSeries :=
  let vehicleToSeriesMap := buildVehicleToSeriesMap seriesData
  let aggregation := pictures.foldl (fun m pic =>
    match lookupS vehicleToSeriesMap pic.vehicle with
    | none => m
    | some seriesList =>
      seriesList.foldl (fun m2 series => bump m2 (seriesKey pic.carrier series)) m) []
  aggregation.map (fun kc =>
    { carrier := (keyParts kc.1).1, series := (keyParts kc.1).2, count := kc.2 })

/-- The series names listed for a vehicle, in row order with multiplicity. -/
def seriesOf (seriesData : List VehicleSeries) (v : Str) : List Str :=
  (seriesData.filter (fun r => decide (r.vehicle = v))).map VehicleSeries.series

/-- All grouping keys one picture generates in aggregatePictureData. -/
def seriesKeysOfPic (seriesData : List VehicleSeries) (p : TravelPicture) : List Str :=
  (seriesOf seriesData p.vehicle).map (fun s => seriesKey p.carrier s)

/-- Number of (Picture, VehicleSeries row) pairs contributing to a given
carrier and series cell: the picture carries the carrier, the row names the
series, and the row lists the vehicle of the picture. -/
def seriesPairContrib (pictures : List TravelPicture) (seriesData : List VehicleSeries)
    (c s : Str) : Nat :=
  (pictures.map (fun p => if p.carrier = c then
      (seriesData.filter (fun r => decide (r.vehicle = p.vehicle ∧ r.series = s))).length
    else 0)).sum

/-! Reconciliation of linked Picture URLs against the object-store listing. -/
/-- Embedding of extractTravelPictureUrls. -/
def extractTravelPictureUrls (pictures : List TravelPicture) : List Str :=
  pictures.map TravelPicture.url

/-- The uniform error body getUnlinkedTravelPictures responds with. -/
def unlinkedFailBody : Str := str ("Failed to get unlinked pictures")

/-- Embedding of getUnlinkedTravelPictures: fetch the linked Picture rows,
list the object store, and keep the listed keys absent from the linked set;
a failure of either source is caught and becomes one error response with no
partial list. -/
def getUnlinkedTravelPictures (picturesRes : Except Str (List TravelPicture))
    (s3Res : Except Str (List Str)) : Except Str (List Str) :=
  match picturesRes with
  | .error _ => .error unlinkedFailBody
  | .ok pictures =>
    match s3Res with
    | .error _ => .error unlinkedFailBody
    | .ok s3Pictures =>
      let linked := extractTravelPictureUrls pictures
      .ok (s3Pictures.filter (fun pic => !(linked.contains pic)))

/-! Embedding of validateRequiredFields and linkPhotoToTravel. -/
/-- Whitespace characters recognized by the trim of the source language:
tab, line feed, vertical tab, form feed, carriage return, space, no-break
space, the Unicode space separators, the line and paragraph separators and
the byte order mark. -/
def isJsSpace (c : Char) : Bool :=
  c = ' ' || c = '\t' || c = '\n' || c = '\r' || c = '\x0b' || c = '\x0c' ||
  c = '\u00A0' || c = '\u1680' || c = '\u2000' || c = '\u2001' || c = '\u2002' ||
  c = '\u2003' || c = '\u2004' || c = '\u2005' || c = '\u2006' || c = '\u2007' ||
  c = '\u2008' || c = '\u2009' || c = '\u200A' || c = '\u2028' || c = '\u2029' ||
  c = '\u202F' || c = '\u205F' || c = '\u3000' || c = '\uFEFF'

/-- Embedding of the trim method: strip whitespace from both ends. -/
def jsTrim (s : Str) : Str :=
  ((s.dropWhile isJsSpace).reverse.dropWhile isJsSpace).reverse

/-- A request field value; none models an absent field. -/
abbrev FieldVal := Option Str

/-- Embedding of the per-field test of validateRequiredFields: a field fails
when it is falsy (absent or the empty string) or trims to the empty string. -/
def isFieldInvalid : FieldVal → Bool
  | none => true
  | some s => s.isEmpty || (jsTrim s).isEmpty

/-- Embedding of validateRequiredFields: scan the fields in order and return
false at the first invalid one (where the source sends the 400 response). -/
def validateRequiredFields : List (Str × FieldVal) → Bool
  | [] => true
  | (_, v) :: rest => if isFieldInvalid v then false else validateRequiredFields rest

/-- The JSON body of a link-picture request; any field may be absent. -/
structure PictureRequest where
  carrier : FieldVal
  url : FieldVal
  vehicle : FieldVal

/-- The Picture row inserted for a validated request, with the generated id
attached; on the insert path the fields are all present. -/
def mkTravelPicture (req : PictureRequest) (newId : Str) : TravelPicture :=
  { _id := newId, carrier := req.carrier.getD [], vehicle := req.vehicle.getD [],
    url := req.url.getD [] }

/-- Response status and resulting Picture rows of linkPhotoToTravel. -/
structure LinkOutcome where
  status : Nat
  rows : List TravelPicture
  deriving DecidableEq, Repr

/-- Embedding of linkPhotoToTravel: attach a fresh id, validate the carrier,
url and vehicle fields, and only on success insert the row. -/
def linkPhotoToTravel (req : PictureRequest) (newId : Str) (rows : List TravelPicture) :
    LinkOutcome :=
  if validateRequiredFields
      [(str ("carrier"), req.carrier), (str ("url"), req.url),
       (str ("vehicle"), req.vehicle)] then
    { status := 200, rows := rows ++ [mkTravelPicture req newId] }
  else
    { status := 400, rows := rows }

/-! Embedding of the object-store listing client. -/
/-- The recognized image extension set of the listing client. -/
def imageExtensions : List Str :=
  [str (".jpg"), str (".jpeg"), str (".png"), str (".gif"), str (".bmp"),
   str (".webp"), str (".svg"), str (".tiff"), str (".heic"), str (".avif"),
   str (".ico"), str (".jxl"), str (".heif"), str (".raw")]

/-- The final path segment, after the last slash. -/
def pathBase (s : Str) : Str := (s.reverse.takeWhile (fun c => !(c == '/'))).reverse

/-- The suffix starting at the last dot of a list, if a dot occurs. -/
def extTail : Str → Option Str
  | [] => none
  | c :: rest =>
    match extTail rest with
    | some t => some t
    | none => if c = '.' then some (c :: rest) else none

/-- Embedding of path.extname: the extension of the final path segment, from
its last dot, where a dot in first position starts no extension. -/
def extname (s : Str) : Str :=
  match pathBase s with
  | [] => []
  | _ :: rest =>
    match extTail rest with
    | some t => t
    | none => []

/-- Embedding of isImageFile: lower-case the extension and test membership in
the recognized set; an empty filename has no image extension. -/
def isImageFile (filename : Str) : Bool :=
  if filename.isEmpty then false
  else imageExtensions.contains ((extname filename).map Char.toLower)

/-- One listed object; the key may be absent. -/
structure S3Object where
  Key : Option Str
  deriving DecidableEq, Repr

/-- One page of a paginated listing response. -/
structure ListPage where
  Contents : Option (List S3Object)
  NextContinuationToken : Option Str
  deriving DecidableEq, Repr

/-- The key an object contributes inside the page loop: present, truthy and
recognized as an image. -/
def keptKey (o : S3Object) : Option Str :=
  match o.Key with
  | some key => if !key.isEmpty && isImageFile key then some key else none
  | none => none

/-- Keys one page contributes in the listing loop. -/
def pageImageKeys (page : ListPage) : List Str :=
  (page.Contents.getD []).filterMap keptKey

/-- The wrapped error message of a failed listing. -/
def listFailMsg (e : Str) : Str := str ("Failed to list S3 images: ") ++ e

/-- The pagination loop of listImages over a stubbed response stream: consume
one response per iteration, stop after a page without a continuation token,
fail when a page request fails (an exhausted stub models a failed request). -/
def listImagesLoop : List (Except Str ListPage) → List Str → Except Str (List Str)
  | [], _ => .error (listFailMsg (str ("no response")))
  | .error e :: _, _ => .error (listFailMsg e)
  | .ok page :: rest, acc =>
    let acc2 := acc ++ pageImageKeys page
    match page.NextContinuationToken with
    | none => .ok acc2
    | some _ => listImagesLoop rest acc2

/-- Embedding of listImages: validate the bucket and prefix, then follow
continuation tokens until exhausted. -/
def listImages (bucketName folderPref : Str)
    (responses : List (Except Str ListPage)) : Except Str (List Str) :=
  if bucketName.isEmpty then .error (str ("Bucket name cannot be empty"))
  else if folderPref.isEmpty then .error (str ("Folder prefix cannot be empty"))
  else listImagesLoop responses []

/-- All keys a page reports, before the image filter. -/
def rawKeys (page : ListPage) : List Str :=
  (page.Contents.getD []).filterMap S3Object.Key

/-- A well-formed page sequence: every page except the last carries a
continuation token and the last does not. -/
def pagesWellFormed : List ListPage → Bool
  | [] => false
  | [p] => p.NextContinuationToken.isNone
  | p :: rest => p.NextContinuationToken.isSome && pagesWellFormed rest

/-- A two-page stub listing used to instantiate the pagination theorem. -/
def samplePages : List ListPage :=
  [{ Contents := some [{ Key := some (str ("vehicles/a.jpg")) },
                       { Key := some (str ("vehicles/skip.txt")) }],
     NextContinuationToken := some (str ("t1")) },
   { Contents := some [{ Key := some (str ("vehicles/b.PNG")) },
                       { Key := none }],
     NextContinuationToken := none }]

/-! The count aggregator over the media collection. -/
/-- A loosely-typed media document: named string fields. -/
abbrev Doc := List (Str × Str)

/-- Field access on a document. -/
def getField (d : Doc) (f : Str) : Option Str := lookupS d f

/-- The rows kept by the match stage: those whose field holds an ID of the
given set; rows with a dangling or absent reference are excluded. -/
def matchedRows (rows : List Doc) (fieldName : Str) (ids : List Str) : List Doc :=
  rows.filter (fun r =>
    match getField r fieldName with
    | some v => ids.contains v
    | none => false)

/-- Modelled from the spec: the grouped-count aggregation primitive of the
document store, which is not part of the repository sources (the route layer
only builds the match-and-group pipeline and sends it to the store). It
keeps the rows whose given field holds a value of the ID list, groups them
by that value and counts each group. -/
def aggregateGroupCount (rows : List Doc) (fieldName : Str) (ids : List Str) :
    List (Str × Nat) :=
  tally [] ((matchedRows rows fieldName ids).filterMap (fun r => getField r fieldName))

/-- The result-to-record conversion loop of getPictureCountsForEntities. -/
def setRecord (m : List (Str × Nat)) (k : Str) (v : Nat) : List (Str × Nat) :=
  match m with
  | [] => [(k, v)]
  | (k1, v1) :: rest => if k1 = k then (k1, v) :: rest else (k1, v1) :: setRecord rest k v

/-- Embedding of getPictureCountsForEntities: an empty ID list returns an
empty record at once; otherwise one aggregation query runs and its result
rows become the counts record. The second component counts the aggregation
queries issued to the store. -/
def getPictureCountsForEntities (rows : List Doc) (entityIds : List Str)
    (fieldName : Str) : List (Str × Nat) × Nat :=
  if entityIds.length = 0 then ([], 0)
  else
    ((aggregateGroupCount rows fieldName entityIds).foldl
        (fun m kc => setRecord m kc.1 kc.2) [], 1)

theorem lookupS_bump (m : List (Str × Nat)) (k k0 : Str) :
    lookupS (bump m k) k0 = if k = k0 then some (valAt m k0 + 1) else lookupS m k0 := by
  induction m with
  | nil =>
    by_cases hk : k = k0 <;> simp [bump, lookupS, valAt, hk]
  | cons hd tl ih =>
    obtain ⟨k1, v1⟩ := hd
    by_cases h1 : k1 = k
    · subst h1
      by_cases h0 : k1 = k0
      · subst h0
        simp [bump, lookupS, valAt]
      · simp [bump, lookupS, h0, if_neg h0]
    · simp only [bump, if_neg h1]
      by_cases h0 : k1 = k0
      · subst h0
        have hkk0 : ¬ k = k1 := fun h => h1 h.symm
        simp [lookupS, valAt, hkk0]
      · simp [lookupS, h0, ih, valAt]

theorem keysOf_bump (m : List (Str × Nat)) (k : Str) :
    keysOf (bump m k) = if k ∈ keysOf m then keysOf m else keysOf m ++ [k] := by
  induction m with
  | nil => simp [bump, keysOf]
  | cons hd tl ih =>
    obtain ⟨k1, v1⟩ := hd
    by_cases h1 : k1 = k
    · subst h1
      simp [bump, keysOf]
    · have h1' : ¬ k = k1 := fun h => h1 h.symm
      simp only [keysOf] at ih
      by_cases hm : k ∈ keysOf tl
      · simp only [keysOf] at hm
        simp [bump, h1, keysOf, hm, ih, h1']
      · simp only [keysOf] at hm
        simp [bump, h1, keysOf, hm, ih, h1']

theorem valAt_bump (m : List (Str × Nat)) (k k0 : Str) :
    valAt (bump m k) k0 = if k = k0 then valAt m k0 + 1 else valAt m k0 := by
  by_cases h : k = k0 <;> simp [valAt, lookupS_bump, h]

theorem tally_nil (m : List (Str × Nat)) : tally m [] = m := rfl

theorem tally_cons (m : List (Str × Nat)) (k : Str) (ks : List Str) :
    tally m (k :: ks) = tally (bump m k) ks := rfl

theorem valAt_tally (ks : List Str) (m : List (Str × Nat)) (k : Str) :
    valAt (tally m ks) k = valAt m k + ks.count k := by
  induction ks generalizing m with
  | nil => simp [tally]
  | cons hd tl ih =>
    rw [tally_cons, ih]
    by_cases h : hd = k
    · subst h
      simp [valAt_bump, List.count_cons]
      omega
    · simp [valAt_bump, h, List.count_cons, Ne.symm h]

theorem mem_keysOf_tally (ks : List Str) (m : List (Str × Nat)) (k : Str) :
    k ∈ keysOf (tally m ks) ↔ k ∈ keysOf m ∨ k ∈ ks := by
  induction ks generalizing m with
  | nil => simp [tally]
  | cons hd tl ih =>
    rw [tally_cons, ih, keysOf_bump]
    by_cases hm : hd ∈ keysOf m
    · simp only [if_pos hm, List.mem_cons]
      constructor
      · rintro (h | h)
        · exact Or.inl h
        · exact Or.inr (Or.inr h)
      · rintro (h | h | h)
        · exact Or.inl h
        · exact Or.inl (h ▸ hm)
        · exact Or.inr h
    · simp only [if_neg hm, List.mem_append, List.mem_singleton, List.mem_cons]
      tauto

theorem nodup_keysOf_tally (ks : List Str) (m : List (Str × Nat))
    (h : (keysOf m).Nodup) : (keysOf (tally m ks)).Nodup := by
  induction ks generalizing m with
  | nil => exact h
  | cons hd tl ih =>
    rw [tally_cons]
    refine ih (bump m hd) ?_
    rw [keysOf_bump]
    by_cases hm : hd ∈ keysOf m
    · simpa [hm] using h
    · simp only [if_neg hm]
      exact List.Nodup.append h (List.nodup_singleton hd) (by simpa using hm)

theorem valuesSum_bump (m : List (Str × Nat)) (k : Str) :
    valuesSum (bump m k) = valuesSum m + 1 := by
  induction m with
  | nil => simp [bump, valuesSum]
  | cons hd tl ih =>
    obtain ⟨k1, v1⟩ := hd
    by_cases h1 : k1 = k
    · simp [bump, h1, valuesSum]
      omega
    · simp [bump, h1, valuesSum] at ih ⊢
      omega

theorem valuesSum_tally (ks : List Str) (m : List (Str × Nat)) :
    valuesSum (tally m ks) = valuesSum m + ks.length := by
  induction ks generalizing m with
  | nil => simp [tally]
  | cons hd tl ih =>
    rw [tally_cons, ih, valuesSum_bump, List.length_cons]
    omega

theorem lookupS_eq_some_of_mem {α : Type} (m : List (Str × α)) (k : Str) (v : α)
    (hnd : (keysOf m).Nodup) (hm : (k, v) ∈ m) : lookupS m k = some v := by
  induction m with
  | nil => cases hm
  | cons hd tl ih =>
    obtain ⟨k1, v1⟩ := hd
    simp only [keysOf, List.map_cons, List.nodup_cons] at hnd
    rcases List.mem_cons.mp hm with h | h
    · rw [Prod.mk.injEq] at h
      obtain ⟨hk, hv⟩ := h
      subst hk
      subst hv
      show (if k = k then some v else lookupS tl k) = some v
      rw [if_pos rfl]
    · have hk1 : k1 ≠ k := by
        intro he
        exact hnd.1 (he ▸ (List.mem_map.mpr ⟨(k, v), h, rfl⟩))
      show (if k1 = k then some v1 else lookupS tl k) = some v
      rw [if_neg hk1]
      exact ih hnd.2 h

theorem mem_of_lookupS_eq_some {α : Type} (m : List (Str × α)) (k : Str) (v : α)
    (h : lookupS m k = some v) : (k, v) ∈ m := by
  induction m with
  | nil => cases h
  | cons hd tl ih =>
    obtain ⟨k1, v1⟩ := hd
    have h' : (if k1 = k then some v1 else lookupS tl k) = some v := h
    by_cases h1 : k1 = k
    · subst h1
      rw [if_pos rfl] at h'
      injection h' with hv
      subst hv
      exact List.mem_cons_self _ _
    · rw [if_neg h1] at h'
      exact List.mem_cons.mpr (Or.inr (ih h'))

theorem mem_tally_nil (ks : List Str) (k : Str) (v : Nat)
    (h : (k, v) ∈ tally [] ks) : v = ks.count k ∧ k ∈ ks := by
  have hnd : (keysOf (tally ([] : List (Str × Nat)) ks)).Nodup :=
    nodup_keysOf_tally ks [] (by simp [keysOf])
  have hl : lookupS (tally [] ks) k = some v := lookupS_eq_some_of_mem _ _ _ hnd h
  have hmem : k ∈ ks := by
    have hkk : k ∈ keysOf (tally [] ks) := List.mem_map.mpr ⟨(k, v), h, rfl⟩
    rcases (mem_keysOf_tally ks [] k).mp hkk with hc | hc
    · simp [keysOf] at hc
    · exact hc
  refine ⟨?_, hmem⟩
  have hv : valAt (tally [] ks) k = v := by simp [valAt, hl]
  rw [valAt_tally] at hv
  have h0 : valAt ([] : List (Str × Nat)) k = 0 := by simp [valAt, lookupS]
  omega

theorem lookupS_tally_of_mem (ks : List Str) (k : Str) (hk : k ∈ ks) :
    lookupS (tally [] ks) k = some (ks.count k) := by
  have hmem : k ∈ keysOf (tally [] ks) := (mem_keysOf_tally ks [] k).mpr (by simp [keysOf, hk])
  obtain ⟨⟨k', v⟩, hmem', hfst⟩ := List.mem_map.mp hmem
  simp only at hfst
  subst hfst
  have hnd : (keysOf (tally ([] : List (Str × Nat)) ks)).Nodup :=
    nodup_keysOf_tally ks [] (by simp [keysOf])
  have hl := lookupS_eq_some_of_mem _ _ _ hnd hmem'
  have hcount := mem_tally_nil ks k' v hmem'
  rw [hl, hcount.1]

/-! Lemmas about the pipe-joined grouping keys. -/
theorem splitOnPipe_no_pipe (b : Str) (h : '|' ∉ b) : splitOnPipe b = [b] := by
  induction b with
  | nil => rfl
  | cons c rest ih =>
    have hc : ¬ c = '|' := fun he => h (he ▸ List.mem_cons_self c rest)
    have hrest : '|' ∉ rest := fun hm => h (List.mem_cons_of_mem c hm)
    simp only [splitOnPipe, if_neg hc, ih hrest]

theorem splitOnPipe_append (a b : Str) (ha : '|' ∉ a) :
    splitOnPipe (a ++ '|' :: b) = a :: splitOnPipe b := by
  induction a with
  | nil => simp [splitOnPipe]
  | cons a0 a' ih =>
    have ha0 : ¬ a0 = '|' := fun he => ha (he ▸ List.mem_cons_self a0 a')
    have ha' : '|' ∉ a' := fun hm => ha (List.mem_cons_of_mem a0 hm)
    simp only [List.cons_append, splitOnPipe, if_neg ha0]
    show (match splitOnPipe (a' ++ '|' :: b) with
      | [] => [[a0]]
      | part :: parts => (a0 :: part) :: parts) = (a0 :: a') :: splitOnPipe b
    rw [ih ha']

theorem keyParts_join (a b : Str) (ha : '|' ∉ a) (hb : '|' ∉ b) :
    keyParts (a ++ '|' :: b) = (a, b) := by
  simp [keyParts, splitOnPipe_append a b ha, splitOnPipe_no_pipe b hb]

theorem pipeJoin_inj_mp (a : Str) (b c d : Str) (ha : '|' ∉ a) (hc : '|' ∉ c)
    (h : a ++ '|' :: b = c ++ '|' :: d) : a = c ∧ b = d := by
  induction a generalizing c with
  | nil =>
    cases c with
    | nil => simpa using h
    | cons c0 c' =>
      simp only [List.nil_append, List.cons_append, List.cons.injEq] at h
      exfalso
      apply hc
      rw [h.1]
      exact List.mem_cons_self _ _
  | cons a0 a' ih =>
    cases c with
    | nil =>
      simp only [List.cons_append, List.nil_append, List.cons.injEq] at h
      exfalso
      apply ha
      rw [← h.1]
      exact List.mem_cons_self _ _
    | cons c0 c' =>
      simp only [List.cons_append, List.cons.injEq] at h
      have ha' : '|' ∉ a' := fun hm => ha (List.mem_cons_of_mem a0 hm)
      have hc' : '|' ∉ c' := fun hm => hc (List.mem_cons_of_mem c0 hm)
      obtain ⟨h1, h2⟩ := ih c' ha' hc' h.2
      exact ⟨by rw [h.1, h1], h2⟩

theorem pipeJoin_inj (a b c d : Str) (ha : '|' ∉ a) (hc : '|' ∉ c) :
    a ++ '|' :: b = c ++ '|' :: d ↔ a = c ∧ b = d := by
  constructor
  · exact pipeJoin_inj_mp a b c d ha hc
  · rintro ⟨rfl, rfl⟩
    rfl

theorem count_map_eq_length_filter {α : Type} (l : List α) (f : α → Str) (k : Str) :
    (l.map f).count k = (l.filter (fun x => decide (f x = k))).length := by
  induction l with
  | nil => rfl
  | cons hd tl ih =>
    by_cases h : f hd = k <;>
      simp [List.count_cons, List.filter_cons, h, ih]

/-! Structure of the pair table. -/
theorem convertToTravelPictureTable_eq_map_tally (pictures : List TravelPicture) :
    convertToTravelPictureTable pictures =
      (tally [] (pictures.map pairKey)).map
        (fun kc => { carrier := (keyParts kc.1).1, vehicle := (keyParts kc.1).2, count := kc.2 }) := by
  unfold convertToTravelPictureTable tally
  rw [List.foldl_map]

theorem pairKey_count (pictures : List TravelPicture) (c v : Str)
    (hnp : ∀ p ∈ pictures, '|' ∉ p.carrier) (hc : '|' ∉ c) :
    (pictures.map pairKey).count (c ++ '|' :: v) =
      (pictures.filter (fun p => decide (p.carrier = c ∧ p.vehicle = v))).length := by
  rw [count_map_eq_length_filter]
  congr 1
  apply List.filter_congr
  intro p hp
  have hiff := pipeJoin_inj p.carrier p.vehicle c v (hnp p hp) hc
  simp only [pairKey]
  exact decide_eq_decide.mpr hiff

theorem key_source (pictures : List TravelPicture)
    (hnp : ∀ p ∈ pictures, '|' ∉ p.carrier ∧ '|' ∉ p.vehicle)
    (k : Str) (hk : k ∈ pictures.map pairKey) :
    k = (keyParts k).1 ++ '|' :: (keyParts k).2 ∧ '|' ∉ (keyParts k).1 ∧ '|' ∉ (keyParts k).2 := by
  obtain ⟨p, hp, hke⟩ := List.mem_map.mp hk
  subst hke
  rw [pairKey, keyParts_join _ _ (hnp p hp).1 (hnp p hp).2]
  exact ⟨rfl, (hnp p hp).1, (hnp p hp).2⟩

theorem table_row_source (pictures : List TravelPicture)
    (hnp : ∀ p ∈ pictures, '|' ∉ p.carrier ∧ '|' ∉ p.vehicle)
    (row : TravelPictureTable) (hrow : row ∈ convertToTravelPictureTable pictures) :
    ∃ p ∈ pictures, p.carrier = row.carrier ∧ p.vehicle = row.vehicle ∧
      row.count = (pictures.map pairKey).count (pairKey p) := by
  rw [convertToTravelPictureTable_eq_map_tally] at hrow
  obtain ⟨⟨k, n⟩, hmem, hrow_eq⟩ := List.mem_map.mp hrow
  obtain ⟨hn, hkmem⟩ := mem_tally_nil _ _ _ hmem
  obtain ⟨p, hp, hke⟩ := List.mem_map.mp hkmem
  refine ⟨p, hp, ?_, ?_, ?_⟩
  · rw [← hrow_eq]
    show p.carrier = (keyParts k).1
    rw [← hke, pairKey, keyParts_join _ _ (hnp p hp).1 (hnp p hp).2]
  · rw [← hrow_eq]
    show p.vehicle = (keyParts k).2
    rw [← hke, pairKey, keyParts_join _ _ (hnp p hp).1 (hnp p hp).2]
  · rw [← hrow_eq]
    show n = (pictures.map pairKey).count (pairKey p)
    rw [hn, hke]

/-- C5 counterexample: when IDs may contain the pipe character, two distinct
(carrier, vehicle) pairs collapse into one grouping key, and the table shows
a row for the pair (A, B) with count 2 although no Picture has carrier A and
vehicle B, contradicting the claim that only observed pairs appear. -/
theorem c5_counterexample :
    convertToTravelPictureTable
      [{ carrier := str ("A|B"), vehicle := str ("C") },
       { carrier := str ("A"), vehicle := str ("B|C") }] =
      [{ carrier := str ("A"), vehicle := str ("B"), count := 2 }] ∧
    ¬ ∃ p ∈ ([{ carrier := str ("A|B"), vehicle := str ("C") },
              { carrier := str ("A"), vehicle := str ("B|C") }] : List TravelPicture),
        p.carrier = str ("A") ∧ p.vehicle = str ("B") := by
  decide

/-- C5 (amended): for every list of Picture rows in which no carrier or
vehicle contains the pipe character, the pair table has exactly one row per
observed (carrier, vehicle) pair, the count of a row is the number of
Pictures with exactly that carrier and vehicle, unobserved pairs do not
appear, and the concrete three-Picture scenario gives the expected table. -/
theorem c5_convertToTravelPictureTable_spec (pictures : List TravelPicture)
    (hnp : ∀ p ∈ pictures, '|' ∉ p.carrier ∧ '|' ∉ p.vehicle) :
    (∀ row ∈ convertToTravelPictureTable pictures,
        row.count = (pictures.filter
          (fun p => decide (p.carrier = row.carrier ∧ p.vehicle = row.vehicle))).length ∧
        ∃ p ∈ pictures, p.carrier = row.carrier ∧ p.vehicle = row.vehicle) ∧
    (∀ p ∈ pictures, ∃ row ∈ convertToTravelPictureTable pictures,
        row.carrier = p.carrier ∧ row.vehicle = p.vehicle) ∧
    ((convertToTravelPictureTable pictures).map (fun r => (r.carrier, r.vehicle))).Nodup ∧
    convertToTravelPictureTable samplePictures =
      [{ carrier := str ("A"), vehicle := str ("V1"), count := 2 },
       { carrier := str ("A"), vehicle := str ("V2"), count := 1 }] := by
  refine ⟨?_, ?_, ?_, by decide⟩
  · intro row hrow
    obtain ⟨p, hp, hpc, hpv, hcount⟩ := table_row_source pictures hnp row hrow
    have hcar : '|' ∉ row.carrier := hpc ▸ (hnp p hp).1
    refine ⟨?_, ⟨p, hp, hpc, hpv⟩⟩
    rw [hcount]
    have hkey : pairKey p = row.carrier ++ '|' :: row.vehicle := by
      rw [pairKey, hpc, hpv]
    rw [hkey, pairKey_count pictures row.carrier row.vehicle (fun q hq => (hnp q hq).1) hcar]
  · intro p hp
    rw [convertToTravelPictureTable_eq_map_tally]
    have hkmem : pairKey p ∈ keysOf (tally [] (pictures.map pairKey)) :=
      (mem_keysOf_tally _ [] _).mpr (Or.inr (List.mem_map.mpr ⟨p, hp, rfl⟩))
    obtain ⟨⟨k, n⟩, hmem, hfst⟩ := List.mem_map.mp hkmem
    simp only at hfst
    refine ⟨_, List.mem_map.mpr ⟨(k, n), hmem, rfl⟩, ?_, ?_⟩
    · show (keyParts k).1 = p.carrier
      rw [hfst, pairKey, keyParts_join _ _ (hnp p hp).1 (hnp p hp).2]
    · show (keyParts k).2 = p.vehicle
      rw [hfst, pairKey, keyParts_join _ _ (hnp p hp).1 (hnp p hp).2]
  · rw [convertToTravelPictureTable_eq_map_tally, List.map_map]
    have hfun : ((fun r : TravelPictureTable => (r.carrier, r.vehicle)) ∘
        (fun kc : Str × Nat =>
          ({ carrier := (keyParts kc.1).1, vehicle := (keyParts kc.1).2,
             count := kc.2 } : TravelPictureTable)))
        = (fun kc : Str × Nat => keyParts kc.1) := by
      funext kc
      simp [Function.comp]
    rw [hfun]
    have h2 : (fun kc : Str × Nat => keyParts kc.1) =
        keyParts ∘ (Prod.fst : Str × Nat → Str) := rfl
    rw [h2, ← List.map_map]
    have hnd : (List.map (Prod.fst : Str × Nat → Str)
        (tally [] (pictures.map pairKey))).Nodup :=
      nodup_keysOf_tally _ [] (by simp [keysOf])
    refine List.Nodup.map_on ?_ hnd
    intro k1 hk1 k2 hk2 heq
    have hm1 : k1 ∈ pictures.map pairKey :=
      ((mem_keysOf_tally _ [] _).mp hk1).resolve_left (by simp [keysOf])
    have hm2 : k2 ∈ pictures.map pairKey :=
      ((mem_keysOf_tally _ [] _).mp hk2).resolve_left (by simp [keysOf])
    have hsrc1 := key_source pictures hnp k1 hm1
    have hsrc2 := key_source pictures hnp k2 hm2
    rw [hsrc1.1, hsrc2.1, heq]

theorem lookupS_mapAppend (m : List (Str × List Str)) (k v k0 : Str) :
    lookupS (mapAppend m k v) k0 =
      if k = k0 then some ((lookupS m k0).getD [] ++ [v]) else lookupS m k0 := by
  induction m with
  | nil =>
    by_cases hk : k = k0 <;> simp [mapAppend, lookupS, hk]
  | cons hd tl ih =>
    obtain ⟨k1, vs⟩ := hd
    by_cases h1 : k1 = k
    · subst h1
      by_cases h0 : k1 = k0
      · subst h0
        simp [mapAppend, lookupS]
      · simp [mapAppend, lookupS, h0, if_neg h0]
    · simp only [mapAppend, if_neg h1]
      by_cases h0 : k1 = k0
      · subst h0
        have hkk0 : ¬ k = k1 := fun h => h1 h.symm
        simp [lookupS, hkk0]
      · simp [lookupS, h0, ih]

theorem seriesOf_cons (r : VehicleSeries) (tl : List VehicleSeries) (v : Str) :
    seriesOf (r :: tl) v =
      if r.vehicle = v then r.series :: seriesOf tl v else seriesOf tl v := by
  by_cases h : r.vehicle = v <;> simp [seriesOf, List.filter_cons, h]

theorem lookupS_build_aux (sd : List VehicleSeries) (m : List (Str × List Str)) (v : Str) :
    lookupS (sd.foldl (fun m s => mapAppend m s.vehicle s.series) m) v =
      match lookupS m v with
      | some l => some (l ++ seriesOf sd v)
      | none => if seriesOf sd v = [] then none else some (seriesOf sd v) := by
  induction sd generalizing m with
  | nil =>
    cases h : lookupS m v <;> simp [seriesOf, h]
  | cons hd tl ih =>
    simp only [List.foldl_cons]
    rw [ih, seriesOf_cons]
    by_cases hv : hd.vehicle = v
    · rw [lookupS_mapAppend, if_pos hv, if_pos hv]
      cases h : lookupS m v <;> simp [h]
    · rw [lookupS_mapAppend, if_neg hv, if_neg hv]

theorem lookupS_buildVehicleToSeriesMap (sd : List VehicleSeries) (v : Str) :
    lookupS (buildVehicleToSeriesMap sd) v =
      if seriesOf sd v = [] then none else some (seriesOf sd v) := by
  rw [buildVehicleToSeriesMap, lookupS_build_aux]
  simp [lookupS]

theorem tally_append (m : List (Str × Nat)) (ks1 ks2 : List Str) :
    tally m (ks1 ++ ks2) = tally (tally m ks1) ks2 := by
  simp [tally, List.foldl_append]

theorem agg_fold_eq_tally (pictures : List TravelPicture) (seriesData : List VehicleSeries)
    (m : List (Str × Nat)) :
    pictures.foldl (fun m pic =>
      match lookupS (buildVehicleToSeriesMap seriesData) pic.vehicle with
      | none => m
      | some seriesList =>
        seriesList.foldl (fun m2 series => bump m2 (seriesKey pic.carrier series)) m) m
    = tally m (pictures.flatMap (seriesKeysOfPic seriesData)) := by
  induction pictures generalizing m with
  | nil => simp [tally]
  | cons p rest ih =>
    simp only [List.foldl_cons, List.flatMap_cons, tally_append]
    rw [ih]
    congr 1
    rw [lookupS_buildVehicleToSeriesMap]
    by_cases h : seriesOf seriesData p.vehicle = []
    · simp [h, seriesKeysOfPic, tally]
    · rw [if_neg h]
      show (seriesOf seriesData p.vehicle).foldl
          (fun m2 series => bump m2 (seriesKey p.carrier series)) m
        = tally m (seriesKeysOfPic seriesData p)
    
      rw [seriesKeysOfPic, tally, List.foldl_map]

theorem aggregatePictureData_eq_map_tally (pictures : List TravelPicture)
    (seriesData : List VehicleSeries) :
    aggregatePictureData pictures seriesData =
      (tally [] (pictures.flatMap (seriesKeysOfPic seriesData))).map
        (fun kc =>
          { carrier := (keyParts kc.1).1, series := (keyParts kc.1).2, count := kc.2 }) := by
  show (pictures.foldl (fun m pic =>
      match lookupS (buildVehicleToSeriesMap seriesData) pic.vehicle with
      | none => m
      | some seriesList =>
        seriesList.foldl (fun m2 series => bump m2 (seriesKey pic.carrier series)) m) []).map
      (fun kc =>
        ({ carrier := (keyParts kc.1).1, series := (keyParts kc.1).2,
           count := kc.2 } : TravelPictureSeries))
    = (tally [] (pictures.flatMap (seriesKeysOfPic seriesData))).map
      (fun kc =>
        ({ carrier := (keyParts kc.1).1, series := (keyParts kc.1).2,
           count := kc.2 } : TravelPictureSeries))
  rw [agg_fold_eq_tally]

theorem count_bind {α : Type} (l : List α) (f : α → List Str) (k : Str) :
    (l.flatMap f).count k = (l.map (fun x => (f x).count k)).sum := by
  induction l with
  | nil => rfl
  | cons hd tl ih => simp [List.flatMap_cons, List.count_append, ih]

theorem count_eq_length_filter_eq (l : List Str) (s : Str) :
    l.count s = (l.filter (fun x => decide (x = s))).length := by
  induction l with
  | nil => rfl
  | cons hd tl ih =>
    by_cases h : hd = s <;> simp [List.count_cons, List.filter_cons, h, ih]

theorem count_seriesOf (sd : List VehicleSeries) (v s : Str) :
    (seriesOf sd v).count s =
      (sd.filter (fun r => decide (r.vehicle = v ∧ r.series = s))).length := by
  rw [seriesOf, count_map_eq_length_filter, List.filter_filter]
  congr 1
  apply List.filter_congr
  intro r hr
  by_cases h1 : r.vehicle = v <;> by_cases h2 : r.series = s <;> simp [h1, h2]

theorem count_seriesKeysOfPic (sd : List VehicleSeries) (p : TravelPicture) (c s : Str)
    (hp : '|' ∉ p.carrier) (hc : '|' ∉ c) :
    (seriesKeysOfPic sd p).count (seriesKey c s) =
      if p.carrier = c then
        (sd.filter (fun r => decide (r.vehicle = p.vehicle ∧ r.series = s))).length
      else 0 := by
  rw [seriesKeysOfPic, count_map_eq_length_filter]
  by_cases hpc : p.carrier = c
  · rw [if_pos hpc, ← count_seriesOf]
    have hcong : ∀ x ∈ seriesOf sd p.vehicle,
        (decide (seriesKey p.carrier x = seriesKey c s)) = decide (x = s) := by
      intro x hx
      apply decide_eq_decide.mpr
      rw [seriesKey, seriesKey, pipeJoin_inj _ _ _ _ hp hc]
      constructor
      · rintro ⟨h1, h2⟩
        exact h2
      · intro h
        exact ⟨hpc, h⟩
    rw [List.filter_congr hcong, ← count_eq_length_filter_eq]
  · rw [if_neg hpc]
    have hcong : ∀ x ∈ seriesOf sd p.vehicle,
        (decide (seriesKey p.carrier x = seriesKey c s)) = false := by
      intro x hx
      rw [decide_eq_false_iff_not, seriesKey, seriesKey, pipeJoin_inj _ _ _ _ hp hc]
      rintro ⟨h1, h2⟩
      exact hpc h1
    rw [List.filter_congr hcong]
    simp

theorem count_allSeriesKeys (pictures : List TravelPicture) (sd : List VehicleSeries) (c s : Str)
    (hp : ∀ p ∈ pictures, '|' ∉ p.carrier) (hc : '|' ∉ c) :
    (pictures.flatMap (seriesKeysOfPic sd)).count (seriesKey c s) =
      seriesPairContrib pictures sd c s := by
  rw [count_bind, seriesPairContrib]
  congr 1
  apply List.map_congr_left
  intro p hpm
  exact count_seriesKeysOfPic sd p c s (hp p hpm) hc

theorem mem_seriesOf (sd : List VehicleSeries) (v x : Str) :
    x ∈ seriesOf sd v ↔ ∃ r ∈ sd, r.vehicle = v ∧ r.series = x := by
  simp only [seriesOf, List.mem_map, List.mem_filter, decide_eq_true_eq]
  constructor
  · rintro ⟨r, ⟨hr, hv⟩, hs⟩
    exact ⟨r, hr, hv, hs⟩
  · rintro ⟨r, hr, hv, hs⟩
    exact ⟨r, ⟨hr, hv⟩, hs⟩

theorem series_key_source (pictures : List TravelPicture) (sd : List VehicleSeries)
    (hp : ∀ p ∈ pictures, '|' ∉ p.carrier) (hs : ∀ r ∈ sd, '|' ∉ r.series)
    (k : Str) (hk : k ∈ pictures.flatMap (seriesKeysOfPic sd)) :
    k = (keyParts k).1 ++ '|' :: (keyParts k).2 ∧
    '|' ∉ (keyParts k).1 ∧ '|' ∉ (keyParts k).2 ∧
    (∃ p ∈ pictures, p.carrier = (keyParts k).1) ∧
    (∃ p ∈ pictures, ∃ r ∈ sd, r.vehicle = p.vehicle ∧ r.series = (keyParts k).2 ∧
        p.carrier = (keyParts k).1) := by
  obtain ⟨p, hpm, hkp⟩ := List.mem_flatMap.mp hk
  obtain ⟨x, hx, hke⟩ := List.mem_map.mp hkp
  obtain ⟨r, hr, hrv, hrs⟩ := (mem_seriesOf sd p.vehicle x).mp hx
  have hxs : '|' ∉ x := hrs ▸ hs r hr
  have hparts : keyParts k = (p.carrier, x) := by
    rw [← hke, seriesKey, keyParts_join _ _ (hp p hpm) hxs]
  rw [hparts]
  refine ⟨?_, hp p hpm, hxs, ⟨p, hpm, rfl⟩, ⟨p, hpm, r, hr, hrv, hrs, rfl⟩⟩
  rw [← hke, seriesKey]

theorem exists_pos_of_sum_pos {α : Type} (l : List α) (f : α → Nat)
    (h : 0 < (l.map f).sum) : ∃ x ∈ l, 0 < f x := by
  induction l with
  | nil => simp at h
  | cons hd tl ih =>
    simp only [List.map_cons, List.sum_cons] at h
    by_cases hh : 0 < f hd
    · exact ⟨hd, List.mem_cons_self _ _, hh⟩
    · have htl : 0 < (tl.map f).sum := by omega
      obtain ⟨x, hx, hfx⟩ := ih htl
      exact ⟨x, List.mem_cons_of_mem _ hx, hfx⟩

/-- C1 counterexample: first, with two identical VehicleSeries rows the code
counts one Picture twice, so the emitted count 2 differs from the number 1 of
Pictures whose carrier matches and whose vehicle appears in a row naming the
series; second, with a pipe character inside a carrier or series name two
distinct (carrier, series) cells collapse, and the emitted row names the pair
(A, B) although that pair has no contributing picture. -/
theorem c1_counterexample :
    aggregatePictureData [{ carrier := str ("A"), vehicle := str ("V") }]
      [{ series := str ("S"), vehicle := str ("V") },
       { series := str ("S"), vehicle := str ("V") }] =
      [{ carrier := str ("A"), series := str ("S"), count := 2 }] ∧
    (([{ carrier := str ("A"), vehicle := str ("V") }] : List TravelPicture).filter
      (fun p => decide (p.carrier = str ("A") ∧
        ∃ r ∈ ([{ series := str ("S"), vehicle := str ("V") },
                 { series := str ("S"), vehicle := str ("V") }] : List VehicleSeries),
          r.vehicle = p.vehicle ∧ r.series = str ("S")))).length = 1 ∧
    aggregatePictureData
      [{ carrier := str ("A|B"), vehicle := str ("V") },
       { carrier := str ("A"), vehicle := str ("W") }]
      [{ series := str ("S"), vehicle := str ("V") },
       { series := str ("B|S"), vehicle := str ("W") }] =
      [{ carrier := str ("A"), series := str ("B"), count := 2 }] := by
  decide

/-- C1 (amended): for Picture and VehicleSeries rows in which no carrier and
no series name contains the pipe character, aggregatePictureData emits
exactly one row per (carrier, series) cell with a positive contribution, the
count of a row is the number of (Picture, VehicleSeries row) pairs whose
picture has that carrier and whose row names that series for the vehicle of
the picture (each row counted with multiplicity), cells with no contribution
do not appear, and the concrete scenario of the spec yields the single row
with carrier A, series S1 and count 3. -/
theorem c1_aggregatePictureData_spec (pictures : List TravelPicture)
    (seriesData : List VehicleSeries)
    (hp : ∀ p ∈ pictures, '|' ∉ p.carrier)
    (hs : ∀ r ∈ seriesData, '|' ∉ r.series) :
    (∀ row ∈ aggregatePictureData pictures seriesData,
        row.count = seriesPairContrib pictures seriesData row.carrier row.series ∧
        0 < row.count) ∧
    (∀ c s, 0 < seriesPairContrib pictures seriesData c s →
        ∃ row ∈ aggregatePictureData pictures seriesData,
          row.carrier = c ∧ row.series = s) ∧
    ((aggregatePictureData pictures seriesData).map (fun r => (r.carrier, r.series))).Nodup ∧
    aggregatePictureData samplePictures sampleSeries =
      [{ carrier := str ("A"), series := str ("S1"), count := 3 }] := by
  refine ⟨?_, ?_, ?_, by decide⟩
  · intro row hrow
    rw [aggregatePictureData_eq_map_tally] at hrow
    obtain ⟨⟨k, n⟩, hmem, hrow_eq⟩ := List.mem_map.mp hrow
    obtain ⟨hn, hkmem⟩ := mem_tally_nil _ _ _ hmem
    obtain ⟨hkre, hk1, hk2, _, _⟩ := series_key_source pictures seriesData hp hs k hkmem
    have hcarr : row.carrier = (keyParts k).1 := by rw [← hrow_eq]
    have hser : row.series = (keyParts k).2 := by rw [← hrow_eq]
    have hcnt : row.count = n := by rw [← hrow_eq]
    have hkey : k = seriesKey (keyParts k).1 (keyParts k).2 := hkre
    constructor
    · rw [hcnt, hn, hcarr, hser]
      have hcc := count_allSeriesKeys pictures seriesData (keyParts k).1 (keyParts k).2 hp hk1
      rw [← hkey] at hcc
      exact hcc
    · have hposk : 0 < (pictures.flatMap (seriesKeysOfPic seriesData)).count k :=
        List.count_pos_iff.mpr hkmem
      omega
  · intro c s hpos
    obtain ⟨p, hpm, hppos⟩ := exists_pos_of_sum_pos _ _ hpos
    have hpc : p.carrier = c := by
      by_contra hne
      simp [hne] at hppos
    have hflt : 0 < (seriesData.filter
        (fun r => decide (r.vehicle = p.vehicle ∧ r.series = s))).length := by
      rw [if_pos hpc] at hppos
      exact hppos
    obtain ⟨r, hrmem⟩ := List.exists_mem_of_length_pos hflt
    obtain ⟨hrsd, hrp⟩ := List.mem_filter.mp hrmem
    rw [decide_eq_true_eq] at hrp
    have hsx : s ∈ seriesOf seriesData p.vehicle :=
      (mem_seriesOf seriesData p.vehicle s).mpr ⟨r, hrsd, hrp.1, hrp.2⟩
    have hkmem : seriesKey c s ∈ pictures.flatMap (seriesKeysOfPic seriesData) :=
      List.mem_flatMap.mpr ⟨p, hpm,
        List.mem_map.mpr ⟨s, hsx, by rw [hpc]⟩⟩
    rw [aggregatePictureData_eq_map_tally]
    have hkeys : seriesKey c s ∈ keysOf (tally [] (pictures.flatMap (seriesKeysOfPic seriesData))) :=
      (mem_keysOf_tally _ [] _).mpr (Or.inr hkmem)
    obtain ⟨⟨k, n⟩, hentry, hfst⟩ := List.mem_map.mp hkeys
    simp only at hfst
    have hc : '|' ∉ c := hpc ▸ hp p hpm
    have hsnp : '|' ∉ s := hrp.2 ▸ hs r hrsd
    refine ⟨_, List.mem_map.mpr ⟨(k, n), hentry, rfl⟩, ?_, ?_⟩
    · show (keyParts k).1 = c
      rw [hfst, seriesKey, keyParts_join _ _ hc hsnp]
    · show (keyParts k).2 = s
      rw [hfst, seriesKey, keyParts_join _ _ hc hsnp]
  · rw [aggregatePictureData_eq_map_tally, List.map_map]
    have hfun : ((fun r : TravelPictureSeries => (r.carrier, r.series)) ∘
        (fun kc : Str × Nat =>
          ({ carrier := (keyParts kc.1).1, series := (keyParts kc.1).2,
             count := kc.2 } : TravelPictureSeries)))
        = (fun kc : Str × Nat => keyParts kc.1) := by
      funext kc
      simp [Function.comp]
    rw [hfun]
    have h2 : (fun kc : Str × Nat => keyParts kc.1) =
        keyParts ∘ (Prod.fst : Str × Nat → Str) := rfl
    rw [h2, ← List.map_map]
    have hnd : (List.map (Prod.fst : Str × Nat → Str)
        (tally [] (pictures.flatMap (seriesKeysOfPic seriesData)))).Nodup :=
      nodup_keysOf_tally _ [] (by simp [keysOf])
    refine List.Nodup.map_on ?_ hnd
    intro k1 hk1 k2 hk2 heq
    have hm1 : k1 ∈ pictures.flatMap (seriesKeysOfPic seriesData) :=
      ((mem_keysOf_tally _ [] _).mp hk1).resolve_left (by simp [keysOf])
    have hm2 : k2 ∈ pictures.flatMap (seriesKeysOfPic seriesData) :=
      ((mem_keysOf_tally _ [] _).mp hk2).resolve_left (by simp [keysOf])
    have hsrc1 := series_key_source pictures seriesData hp hs k1 hm1
    have hsrc2 := series_key_source pictures seriesData hp hs k2 hm2
    rw [hsrc1.1, hsrc2.1, heq]

/-- C1 witness: the amended aggregation theorem applied to the concrete
scenario of the spec. -/
theorem c1_aggregatePictureData_spec_witness :
    (∀ p ∈ samplePictures, '|' ∉ p.carrier) ∧
    (∀ r ∈ sampleSeries, '|' ∉ r.series) ∧
    aggregatePictureData samplePictures sampleSeries =
      [{ carrier := str ("A"), series := str ("S1"), count := 3 }] :=
  ⟨by decide, by decide,
   (c1_aggregatePictureData_spec samplePictures sampleSeries
      (by decide) (by decide)).2.2.2⟩

/-- C5 witness: the amended pair-table theorem applied to the concrete
scenario of the spec. -/
theorem c5_convertToTravelPictureTable_spec_witness :
    (∀ p ∈ samplePictures, '|' ∉ p.carrier ∧ '|' ∉ p.vehicle) ∧
    ((convertToTravelPictureTable samplePictures).map
      (fun r => (r.carrier, r.vehicle))).Nodup ∧
    convertToTravelPictureTable samplePictures =
      [{ carrier := str ("A"), vehicle := str ("V1"), count := 2 },
       { carrier := str ("A"), vehicle := str ("V2"), count := 1 }] :=
  ⟨by decide,
   (c5_convertToTravelPictureTable_spec samplePictures (by decide)).2.2.1,
   (c5_convertToTravelPictureTable_spec samplePictures (by decide)).2.2.2⟩

/-- C9: the grouping keys of both tables join their two components with the
pipe character and recover them by splitting; for components free of the
pipe character the round trip is faithful and every pair-table row carries
the carrier and vehicle of an observed group, while a component containing
the pipe character lets two distinct pairs collapse into the same key. -/
theorem c9_pipe_key_roundtrip :
    (∀ a b : Str, '|' ∉ a → '|' ∉ b → keyParts (a ++ '|' :: b) = (a, b)) ∧
    (∀ pictures : List TravelPicture,
      (∀ p ∈ pictures, '|' ∉ p.carrier ∧ '|' ∉ p.vehicle) →
      ∀ row ∈ convertToTravelPictureTable pictures,
        ∃ p ∈ pictures, p.carrier = row.carrier ∧ p.vehicle = row.vehicle) ∧
    (∃ p q : TravelPicture,
      (p.carrier, p.vehicle) ≠ (q.carrier, q.vehicle) ∧ pairKey p = pairKey q) := by
  refine ⟨keyParts_join, ?_, ?_⟩
  · intro pictures hnp row hrow
    obtain ⟨p, hp, hpc, hpv, _⟩ := table_row_source pictures hnp row hrow
    exact ⟨p, hp, hpc, hpv⟩
  · exact ⟨{ carrier := str ("A|B"), vehicle := str ("C") },
           { carrier := str ("A"), vehicle := str ("B|C") },
           by decide, by decide⟩

/-- C9 witness: the round trip evaluated on the concrete key of carrier A
and vehicle V1. -/
theorem c9_pipe_key_roundtrip_witness :
    ('|' ∉ str ("A")) ∧ ('|' ∉ str ("V1")) ∧
    keyParts (str ("A") ++ '|' :: str ("V1")) = (str ("A"), str ("V1")) :=
  ⟨by decide, by decide,
   c9_pipe_key_roundtrip.1 (str ("A")) (str ("V1")) (by decide) (by decide)⟩

theorem count_filter_of_pred (l : List Str) (p : Str → Bool) (k : Str) (hk : p k = true) :
    (l.filter p).count k = l.count k := by
  induction l with
  | nil => rfl
  | cons hd tl ih =>
    by_cases h : hd = k
    · subst h
      simp [List.filter_cons, hk, List.count_cons, ih]
    · by_cases hp : p hd <;> simp [List.filter_cons, hp, List.count_cons, h, ih]

/-- C2: getUnlinkedTravelPictures returns exactly the listed keys that are
not linked URLs, in listing order with no key added, dropped or reordered;
with linked URLs a.jpg and b.jpg and a listing of a.jpg, b.jpg, c.jpg the
result is the single key c.jpg. -/
theorem c2_getUnlinked_spec (pictures : List TravelPicture) (s3Pictures : List Str) :
    (∃ out, getUnlinkedTravelPictures (.ok pictures) (.ok s3Pictures) = .ok out ∧
      (∀ k, k ∈ out ↔ k ∈ s3Pictures ∧ k ∉ pictures.map TravelPicture.url) ∧
      out.Sublist s3Pictures ∧
      (∀ k, k ∉ pictures.map TravelPicture.url → out.count k = s3Pictures.count k)) ∧
    getUnlinkedTravelPictures
      (.ok [{ carrier := str ("X"), vehicle := str ("Y"), url := str ("a.jpg") },
            { carrier := str ("X"), vehicle := str ("Z"), url := str ("b.jpg") }])
      (.ok [str ("a.jpg"), str ("b.jpg"), str ("c.jpg")]) = .ok [str ("c.jpg")] := by
  constructor
  · refine ⟨_, rfl, ?_, List.filter_sublist _, ?_⟩
    · intro k
      simp [extractTravelPictureUrls, List.mem_filter]
    · intro k hkn
      apply count_filter_of_pred
      simp only [extractTravelPictureUrls] at hkn ⊢
      simp only [Bool.not_eq_true']
      simpa using hkn
  · rfl

/-- C10: when the carrier, url or vehicle field of the request is absent,
empty or whitespace-only, linkPhotoToTravel responds with status 400 and the
Picture rows are unchanged: validation runs before any insert. -/
theorem c10_linkPhotoToTravel_validates (req : PictureRequest) (newId : Str)
    (rows : List TravelPicture)
    (h : isFieldInvalid req.carrier = true ∨ isFieldInvalid req.url = true ∨
         isFieldInvalid req.vehicle = true) :
    (linkPhotoToTravel req newId rows).status = 400 ∧
    (linkPhotoToTravel req newId rows).rows = rows := by
  have hval : validateRequiredFields
      [(str ("carrier"), req.carrier), (str ("url"), req.url),
       (str ("vehicle"), req.vehicle)] = false := by
    rcases h with h | h | h
    · simp [validateRequiredFields, h]
    · by_cases h1 : isFieldInvalid req.carrier <;>
        simp [validateRequiredFields, h1, h]
    · by_cases h1 : isFieldInvalid req.carrier <;>
        by_cases h2 : isFieldInvalid req.url <;>
          simp [validateRequiredFields, h1, h2, h]
  rw [linkPhotoToTravel, hval]
  exact ⟨rfl, rfl⟩

/-- C10 witness: a request with a whitespace-only url is rejected with
status 400 and no insert. -/
theorem c10_linkPhotoToTravel_validates_witness :
    (isFieldInvalid (some (str ("A"))) = true ∨
     isFieldInvalid (some (str ("  "))) = true ∨
     isFieldInvalid (some (str ("V1"))) = true) ∧
    ((linkPhotoToTravel
        { carrier := some (str ("A")), url := some (str ("  ")),
          vehicle := some (str ("V1")) } (str ("id1")) []).status = 400 ∧
     (linkPhotoToTravel
        { carrier := some (str ("A")), url := some (str ("  ")),
          vehicle := some (str ("V1")) } (str ("id1")) []).rows = []) :=
  ⟨by decide,
   c10_linkPhotoToTravel_validates
     { carrier := some (str ("A")), url := some (str ("  ")),
       vehicle := some (str ("V1")) } (str ("id1")) [] (by decide)⟩

/-- C6: if one key returned by getUnlinkedTravelPictures is then linked via
linkPhotoToTravel and nothing else changes, the next call returns exactly
the previous output with that key removed. -/
theorem c6_getUnlinked_after_link (pics : List TravelPicture) (s3 : List Str)
    (req : PictureRequest) (newId k : Str) (prevOut : List Str)
    (hurl : req.url = some k)
    (hok : (linkPhotoToTravel req newId pics).status = 200)
    (hprev : getUnlinkedTravelPictures (.ok pics) (.ok s3) = .ok prevOut)
    (_hk : k ∈ prevOut) :
    getUnlinkedTravelPictures (.ok (linkPhotoToTravel req newId pics).rows) (.ok s3) =
      .ok (prevOut.filter (fun x => !(x == k))) := by
  have hval : validateRequiredFields
      [(str ("carrier"), req.carrier), (str ("url"), req.url),
       (str ("vehicle"), req.vehicle)] = true := by
    by_contra hv
    rw [Bool.not_eq_true] at hv
    rw [linkPhotoToTravel, hv] at hok
    simp at hok
  have hrows : (linkPhotoToTravel req newId pics).rows =
      pics ++ [mkTravelPicture req newId] := by
    rw [linkPhotoToTravel, hval]
    rfl
  have hprev' : s3.filter
      (fun pic => !((extractTravelPictureUrls pics).contains pic)) = prevOut := by
    have := hprev
    simp only [getUnlinkedTravelPictures, Except.ok.injEq] at this
    exact this
  rw [hrows]
  simp only [getUnlinkedTravelPictures, Except.ok.injEq]
  rw [← hprev', List.filter_filter]
  apply List.filter_congr
  intro x hx
  have hurl2 : (mkTravelPicture req newId).url = k := by
    rw [mkTravelPicture, hurl]
    rfl
  simp only [extractTravelPictureUrls, List.map_append, List.map_cons, List.map_nil,
    hurl2]
  by_cases hm : x ∈ pics.map TravelPicture.url <;> by_cases hxk : x = k <;>
    simp [hm, hxk, List.contains_eq_any_beq]

/-- C6 witness: linking the single unlinked key c.jpg removes exactly it. -/
theorem c6_getUnlinked_after_link_witness :
    ({ carrier := some (str ("A")), url := some (str ("c.jpg")),
       vehicle := some (str ("V")) } : PictureRequest).url = some (str ("c.jpg")) ∧
    (linkPhotoToTravel
      { carrier := some (str ("A")), url := some (str ("c.jpg")),
        vehicle := some (str ("V")) } (str ("id1")) []).status = 200 ∧
    getUnlinkedTravelPictures (.ok []) (.ok [str ("c.jpg")]) = .ok [str ("c.jpg")] ∧
    str ("c.jpg") ∈ [str ("c.jpg")] ∧
    getUnlinkedTravelPictures
      (.ok (linkPhotoToTravel
        { carrier := some (str ("A")), url := some (str ("c.jpg")),
          vehicle := some (str ("V")) } (str ("id1")) []).rows)
      (.ok [str ("c.jpg")]) =
      .ok (([str ("c.jpg")]).filter (fun x => !(x == str ("c.jpg")))) :=
  ⟨rfl, by decide, rfl, by decide,
   c6_getUnlinked_after_link [] [str ("c.jpg")]
     { carrier := some (str ("A")), url := some (str ("c.jpg")),
       vehicle := some (str ("V")) }
     (str ("id1")) (str ("c.jpg")) [str ("c.jpg")] rfl (by decide) rfl (by decide)⟩

theorem pageImageKeys_eq_filter (page : ListPage) :
    pageImageKeys page = (rawKeys page).filter isImageFile := by
  rw [pageImageKeys, rawKeys]
  induction page.Contents.getD [] with
  | nil => rfl
  | cons o os ih =>
    cases hK : o.Key with
    | none => simp [List.filterMap_cons, keptKey, hK, ih]
    | some key =>
      by_cases hk : isImageFile key
      · have hne : key.isEmpty = false := by
          cases key with
          | nil => simp [isImageFile] at hk
          | cons c cs => rfl
        simp [List.filterMap_cons, keptKey, hK, hk, hne, List.filter_cons, ih]
      · simp [List.filterMap_cons, keptKey, hK, hk, List.filter_cons, ih]

theorem filter_flatMap {α : Type} (l : List α) (f : α → List Str) (p : Str → Bool) :
    (l.flatMap f).filter p = l.flatMap (fun x => (f x).filter p) := by
  induction l with
  | nil => rfl
  | cons hd tl ih => simp [List.flatMap_cons, List.filter_append, ih]

theorem listImagesLoop_wellFormed (pages : List ListPage) (acc : List Str)
    (hw : pagesWellFormed pages = true) :
    listImagesLoop (pages.map Except.ok) acc =
      .ok (acc ++ pages.flatMap pageImageKeys) := by
  induction pages generalizing acc with
  | nil => simp [pagesWellFormed] at hw
  | cons p rest ih =>
    cases rest with
    | nil =>
      have htok : p.NextContinuationToken = none := by
        simp only [pagesWellFormed, Option.isNone_iff_eq_none] at hw
        exact hw
      simp [listImagesLoop, htok]
    | cons q rest2 =>
      simp only [pagesWellFormed, Bool.and_eq_true] at hw
      obtain ⟨tok, htok⟩ := Option.isSome_iff_exists.mp hw.1
      have hstep : listImagesLoop (List.map Except.ok (p :: q :: rest2)) acc =
          listImagesLoop (List.map Except.ok (q :: rest2)) (acc ++ pageImageKeys p) := by
        simp only [List.map_cons]
        show (match p.NextContinuationToken with
          | none => Except.ok (acc ++ pageImageKeys p)
          | some _ => listImagesLoop (Except.ok q :: List.map Except.ok rest2)
              (acc ++ pageImageKeys p))
          = listImagesLoop (Except.ok q :: List.map Except.ok rest2) (acc ++ pageImageKeys p)
        rw [htok]
      rw [hstep, ih _ hw.2]
      simp [List.flatMap_cons, List.append_assoc]

theorem flatMap_pageImageKeys (pages : List ListPage) :
    pages.flatMap pageImageKeys = pages.flatMap (fun x => (rawKeys x).filter isImageFile) := by
  induction pages with
  | nil => rfl
  | cons hd tl ih => simp [List.flatMap_cons, ih, pageImageKeys_eq_filter]

/-- C4: for every well-formed page sequence (each page but the last carrying
a continuation token), listImages follows the tokens to exhaustion and
returns exactly the concatenation of the keys of all pages whose extension is a
recognized image extension, dropping no matching key, adding no other key,
introducing no duplicate (the output is duplicate-free whenever the listed
keys are); the extension test is the case-insensitive closed-set match. -/
theorem c4_listImages_pagination (bucket pref : Str) (pages : List ListPage)
    (hb : bucket ≠ []) (hp : pref ≠ []) (hw : pagesWellFormed pages = true) :
    listImages bucket pref (pages.map Except.ok) =
      .ok ((pages.flatMap rawKeys).filter isImageFile) ∧
    ((pages.flatMap rawKeys).Nodup →
      ((pages.flatMap rawKeys).filter isImageFile).Nodup) ∧
    isImageFile (str ("photos/trip.JPG")) = true ∧
    isImageFile (str ("photos/readme.txt")) = false := by
  have hbe : bucket.isEmpty = false := by
    cases bucket with
    | nil => exact absurd rfl hb
    | cons c cs => rfl
  have hpe : pref.isEmpty = false := by
    cases pref with
    | nil => exact absurd rfl hp
    | cons c cs => rfl
  refine ⟨?_, fun h => h.filter _, by decide, by decide⟩
  rw [listImages, hbe, hpe]
  simp only [Bool.false_eq_true, if_false]
  rw [listImagesLoop_wellFormed pages [] hw, List.nil_append, filter_flatMap,
    flatMap_pageImageKeys]

/-- C4 witness: the pagination theorem evaluated on a concrete two-page
stub whose boundaries split the key stream. -/
theorem c4_listImages_pagination_witness :
    (str ("milememory") ≠ []) ∧ (str ("vehicles/") ≠ []) ∧
    pagesWellFormed samplePages = true ∧
    listImages (str ("milememory")) (str ("vehicles/")) (samplePages.map Except.ok) =
      .ok ((samplePages.flatMap rawKeys).filter isImageFile) ∧
    (samplePages.flatMap rawKeys).filter isImageFile =
      [str ("vehicles/a.jpg"), str ("vehicles/b.PNG")] :=
  ⟨by decide, by decide, by decide,
   (c4_listImages_pagination (str ("milememory")) (str ("vehicles/")) samplePages
      (by decide) (by decide) (by decide)).1,
   by decide⟩

theorem listImagesLoop_error (good : List ListPage) (e : Str)
    (rest : List (Except Str ListPage)) (acc : List Str)
    (hg : ∀ p ∈ good, p.NextContinuationToken.isSome = true) :
    listImagesLoop (good.map Except.ok ++ .error e :: rest) acc =
      .error (listFailMsg e) := by
  induction good generalizing acc with
  | nil => rfl
  | cons p ps ih =>
    obtain ⟨tok, htok⟩ := Option.isSome_iff_exists.mp (hg p (List.mem_cons_self _ _))
    have hstep : listImagesLoop ((p :: ps).map Except.ok ++ .error e :: rest) acc =
        listImagesLoop (ps.map Except.ok ++ .error e :: rest) (acc ++ pageImageKeys p) := by
      simp only [List.map_cons, List.cons_append]
      show (match p.NextContinuationToken with
        | none => Except.ok (acc ++ pageImageKeys p)
        | some _ => listImagesLoop (ps.map Except.ok ++ .error e :: rest)
            (acc ++ pageImageKeys p))
        = listImagesLoop (ps.map Except.ok ++ .error e :: rest) (acc ++ pageImageKeys p)
      rw [htok]
    rw [hstep]
    exact ih _ (fun q hq => hg q (List.mem_cons_of_mem _ hq))

/-- C8: the listing fails with an error and returns no keys when the bucket
name or the prefix is empty or when any requested page fails behind pages
that all continue, and getUnlinkedTravelPictures fails with its single error
response, returning no partial list, when the store scan or the listing
fails. -/
theorem c8_atomic_failures :
    (∀ (pref : Str) (responses : List (Except Str ListPage)),
       listImages [] pref responses = .error (str ("Bucket name cannot be empty"))) ∧
    (∀ (bucket : Str) (responses : List (Except Str ListPage)), bucket ≠ [] →
       listImages bucket [] responses = .error (str ("Folder prefix cannot be empty"))) ∧
    (∀ (bucket pref : Str) (good : List ListPage) (e : Str)
       (rest : List (Except Str ListPage)), bucket ≠ [] → pref ≠ [] →
       (∀ p ∈ good, p.NextContinuationToken.isSome = true) →
       listImages bucket pref (good.map Except.ok ++ .error e :: rest) =
         .error (listFailMsg e)) ∧
    (∀ (e : Str) (s3Res : Except Str (List Str)),
       getUnlinkedTravelPictures (.error e) s3Res = .error unlinkedFailBody) ∧
    (∀ (pics : List TravelPicture) (e : Str),
       getUnlinkedTravelPictures (.ok pics) (.error e) = .error unlinkedFailBody) := by
  refine ⟨fun pref responses => rfl, ?_, ?_, fun e s3Res => rfl, fun pics e => rfl⟩
  · intro bucket responses hb
    cases bucket with
    | nil => exact absurd rfl hb
    | cons c cs => rfl
  · intro bucket pref good e rest hb hp hg
    have hbe : bucket.isEmpty = false := by
      cases bucket with
      | nil => exact absurd rfl hb
      | cons c cs => rfl
    have hpe : pref.isEmpty = false := by
      cases pref with
      | nil => exact absurd rfl hp
      | cons c cs => rfl
    rw [listImages, hbe, hpe]
    simp only [Bool.false_eq_true, if_false]
    exact listImagesLoop_error good e rest [] hg

/-- C8 witness: the failure cases evaluated at concrete inputs. -/
theorem c8_atomic_failures_witness :
    listImages [] (str ("vehicles/")) [] = .error (str ("Bucket name cannot be empty")) ∧
    listImages (str ("milememory")) [] [] = .error (str ("Folder prefix cannot be empty")) ∧
    listImages (str ("milememory")) (str ("vehicles/"))
      ([{ Contents := some [{ Key := some (str ("vehicles/a.jpg")) }],
          NextContinuationToken := some (str ("t1")) }].map Except.ok ++
        .error (str ("boom")) :: []) = .error (listFailMsg (str ("boom"))) ∧
    getUnlinkedTravelPictures (.error (str ("down"))) (.ok []) = .error unlinkedFailBody ∧
    getUnlinkedTravelPictures (.ok []) (.error (str ("down"))) = .error unlinkedFailBody :=
  ⟨c8_atomic_failures.1 (str ("vehicles/")) [],
   c8_atomic_failures.2.1 (str ("milememory")) [] (by decide),
   c8_atomic_failures.2.2.1 (str ("milememory")) (str ("vehicles/"))
     [{ Contents := some [{ Key := some (str ("vehicles/a.jpg")) }],
        NextContinuationToken := some (str ("t1")) }]
     (str ("boom")) [] (by decide) (by decide) (by decide),
   c8_atomic_failures.2.2.2.1 (str ("down")) (.ok []),
   c8_atomic_failures.2.2.2.2 [] (str ("down"))⟩

theorem setRecord_fresh (m : List (Str × Nat)) (k : Str) (v : Nat)
    (hk : k ∉ keysOf m) : setRecord m k v = m ++ [(k, v)] := by
  induction m with
  | nil => rfl
  | cons hd tl ih =>
    obtain ⟨k1, v1⟩ := hd
    simp only [keysOf, List.map_cons, List.mem_cons, not_or] at hk
    have h1 : ¬ k1 = k := fun h => hk.1 h.symm
    simp only [setRecord, if_neg h1, List.cons_append, List.cons.injEq, true_and]
    exact ih hk.2

theorem record_of_nodup (entries : List (Str × Nat)) (acc : List (Str × Nat))
    (hnd : (keysOf (acc ++ entries)).Nodup) :
    entries.foldl (fun m kc => setRecord m kc.1 kc.2) acc = acc ++ entries := by
  induction entries generalizing acc with
  | nil => simp
  | cons hd tl ih =>
    obtain ⟨k, v⟩ := hd
    simp only [List.foldl_cons]
    have hassoc : acc ++ (k, v) :: tl = (acc ++ [(k, v)]) ++ tl := by
      rw [List.append_assoc]
      rfl
    have hk : k ∉ keysOf acc := by
      simp only [keysOf, List.map_append, List.map_cons] at hnd
      have hdisj := (List.nodup_append.mp hnd).2.2
      intro hmem
      exact hdisj hmem (List.mem_cons_self _ _)
    rw [setRecord_fresh acc k v hk]
    have hnd2 : (keysOf ((acc ++ [(k, v)]) ++ tl)).Nodup := by
      rw [← hassoc]
      exact hnd
    rw [ih _ hnd2, hassoc]

theorem length_filterMap_of_isSome {α β : Type} (l : List α) (f : α → Option β)
    (h : ∀ x ∈ l, (f x).isSome = true) : (l.filterMap f).length = l.length := by
  induction l with
  | nil => rfl
  | cons hd tl ih =>
    obtain ⟨v, hv⟩ := Option.isSome_iff_exists.mp (h hd (List.mem_cons_self _ _))
    simp [List.filterMap_cons, hv, ih (fun x hx => h x (List.mem_cons_of_mem _ hx))]

/-- C7: for every row collection and field name, calling
getPictureCountsForEntities with an empty entity ID set returns the empty
mapping and issues no aggregation query to the store. -/
theorem c7_empty_ids_no_store_call (rows : List Doc) (fieldName : Str) :
    getPictureCountsForEntities rows [] fieldName = ([], 0) := rfl

/-- C3: for every media row collection, entity ID set and field name, the
values of the counts mapping returned by getPictureCountsForEntities sum to
exactly the number of rows whose field references an ID of the set: rows
with dangling or absent references contribute nothing, no row is dropped and
none is counted twice. -/
theorem c3_getPictureCounts_sum (rows : List Doc) (entityIds : List Str)
    (fieldName : Str) :
    valuesSum (getPictureCountsForEntities rows entityIds fieldName).1 =
      (matchedRows rows fieldName entityIds).length := by
  by_cases he : entityIds.length = 0
  · rw [getPictureCountsForEntities, if_pos he]
    have hids : entityIds = [] := List.length_eq_zero.mp he
    subst hids
    show valuesSum [] = _
    have hflt : ∀ r ∈ rows, (match getField r fieldName with
        | some v => List.contains [] v
        | none => false) = false := by
      intro r hr
      cases getField r fieldName <;> rfl
    rw [matchedRows, List.filter_congr hflt]
    simp [valuesSum]
  · rw [getPictureCountsForEntities, if_neg he]
    show valuesSum ((aggregateGroupCount rows fieldName entityIds).foldl
        (fun m kc => setRecord m kc.1 kc.2) []) = _
    have hnd : (keysOf (([] : List (Str × Nat)) ++
        aggregateGroupCount rows fieldName entityIds)).Nodup := by
      rw [List.nil_append, aggregateGroupCount]
      exact nodup_keysOf_tally _ [] (by simp [keysOf])
    rw [record_of_nodup _ [] hnd, List.nil_append, aggregateGroupCount, valuesSum_tally]
    have h0 : valuesSum [] = 0 := rfl
    rw [h0, Nat.zero_add]
    apply length_filterMap_of_isSome
    intro r hr
    have hpred := (List.mem_filter.mp hr).2
    cases hf : getField r fieldName with
    | none => rw [hf] at hpred; cases hpred
    | some v => rfl
